import Mathlib

/-!
Verification of the era-based unbonding queue simulator.

The definitions below are a shallow embedding of the core state and
algorithms of `src/App.jsx` (the era-based simulator component).  JS
numbers are modelled as rationals (all arithmetic used by the core is
exact on the values involved: addition, subtraction, multiplication,
`min`/`max` and comparisons).  The JS object `eraData` (era index →
record) is modelled as an association list with unique keys; the JS
read pattern `eraData[era]?.field || 0` is modelled by a lookup with
default `0`.  The `for` loops of the source iterate over explicit
lists of era indices / loop counters, built by `eraRange`, `downRange`
and `kList` below.
-/

/-- Network parameters (`networkParams` in the source): bonding duration in
eras, minimum unbonding eras, and the minimum slashable share. -/
structure NetworkParams where
  bondingDuration : Int
  minUnbondingEras : Int
  minSlashableShare : ℚ
deriving DecidableEq

/-- Status of an unlock chunk; the source only ever creates `pending`. -/
inductive ChunkStatus where
  | pending
  | withdrawn
deriving DecidableEq

/-- One record of `eraData`: the lowest-third stake and the total amount
that started unbonding in that era. -/
structure EraRecord where
  lowest_third_stake : ℚ
  total_unbond_in_era : ℚ
deriving DecidableEq

/-- The `eraData` object: an association list from era index to record. -/
abbrev EraData := List (Int × EraRecord)

/-- An `UnlockChunk` as created by `addUnbondingRequest`. -/
structure UnlockChunk where
  id : Nat
  unbonding_amount : ℚ
  unbonding_start_era : Int
  previous_unbonded_stake_in_era : ℚ
  status : ChunkStatus
deriving DecidableEq

/-- Key lookup in `eraData` (JS property access `eraData[era]`). -/
def lookupEra : EraData → Int → Option EraRecord
  | [], _ => none
  | p :: ps, e => if p.1 = e then some p.2 else lookupEra ps e

/-- `eraData[era]?.total_unbond_in_era || 0`. -/
def totalUnbondIn (d : EraData) (e : Int) : ℚ :=
  match lookupEra d e with
  | some r => r.total_unbond_in_era
  | none => 0

/-- `eraData[era]?.lowest_third_stake || 0`. -/
def lowestThirdIn (d : EraData) (e : Int) : ℚ :=
  match lookupEra d e with
  | some r => r.lowest_third_stake
  | none => 0

/-- JS object update `{...prev, [e]: r}`: replace the record at key `e` in
place, or append the key at the end if it is absent. -/
def insertEra : EraData → Int → EraRecord → EraData
  | [], e, r => [(e, r)]
  | p :: ps, e, r => if p.1 = e then (e, r) :: ps else p :: insertEra ps e r

/-- The update pattern `{...prev, [e]: {...prev[e], total_unbond_in_era: v}}`
used by `addUnbondingRequest`, `rebondChunk` and `estimateNewUnbondingTime`:
the field `lowest_third_stake` is carried over (reading as `0` when the era
was absent, matching the JS spread of `undefined`). -/
def setTotalUnbond (d : EraData) (e : Int) (v : ℚ) : EraData :=
  insertEra d e ⟨lowestThirdIn d e, v⟩

/-- `getMaxUnstakeForEra`: `(1 - MIN_SLASHABLE_SHARE) * lowest_third_stake`. -/
def getMaxUnstakeForEra (p : NetworkParams) (d : EraData) (era : Int) : ℚ :=
  (1 - p.minSlashableShare) * lowestThirdIn d era

/-- The ascending era range `[lo, lo+1, ..., hi]` (empty when `lo > hi`),
the iteration space of `for (era = lo; era <= hi; era++)`. -/
def eraRange (lo hi : Int) : List Int :=
  (List.range (hi + 1 - lo).toNat).map (fun (i : Nat) => lo + (i : Int))

/-- The descending era range `[hi, hi-1, ..., lo]` (empty when `lo > hi`),
the iteration space of `for (era = hi; era >= lo; era--)`. -/
def downRange (hi lo : Int) : List Int :=
  (List.range (hi + 1 - lo).toNat).map (fun (i : Nat) => hi - (i : Int))

/-- The per-era contribution used by the backward scan of the first
`canWithdraw`: at the chunk's start era the contribution is capped by
`previous_unbonded_stake_in_era + unbonding_amount`. -/
def chunkContribution (d : EraData) (c : UnlockChunk) (era : Int) : ℚ :=
  if era = c.unbonding_start_era then
    min (totalUnbondIn d era) (c.previous_unbonded_stake_in_era + c.unbonding_amount)
  else totalUnbondIn d era

/-- `sumWindow`: the cumulative unbonding total over the inclusive era range
`[lookback, current]`. -/
def sumWindow (d : EraData) (c : UnlockChunk) (lookback current : Int) : ℚ :=
  ((eraRange lookback current).map (chunkContribution d c)).sum

/-- Outcome of the backward scan: either every examined lookback era passed
(`passedAll e`, where `e` counts the passes), or the scan stopped at the
first failing lookback era (`failedAt e era`). -/
inductive ScanResult where
  | passedAll (e : Nat)
  | failedAt (e : Nat) (era : Int)
deriving DecidableEq

/-- The number `e` of lookback eras that passed before the scan ended. -/
def scanPassCount : ScanResult → Nat
  | .passedAll e => e
  | .failedAt e _ => e

/-- The backward scan loop of the first `canWithdraw` / `estimateUnbondingTime`
(`for k = 1..BONDING_DURATION`, breaking once `lookbackEra <
unbonding_start_era`, stopping at the first threshold violation). -/
def backwardScanAux (p : NetworkParams) (d : EraData) (c : UnlockChunk) (current : Int) :
    List Int → Nat → ScanResult
  | [], e => .passedAll e
  | k :: ks, e =>
    if current - k + 1 < c.unbonding_start_era then .passedAll e
    else if sumWindow d c (current - k + 1) current ≤
        (1 - p.minSlashableShare) * lowestThirdIn d (current - k + 1) then
      backwardScanAux p d c current ks (e + 1)
    else .failedAt e (current - k + 1)

/-- The list of loop counters `k = 1, 2, ..., bd`. -/
def kList (bd : Int) : List Int :=
  (List.range bd.toNat).map (fun (i : Nat) => (i : Int) + 1)

/-- The full backward scan of the first `canWithdraw`. -/
def backwardScan (p : NetworkParams) (d : EraData) (c : UnlockChunk) (current : Int) :
    ScanResult :=
  backwardScanAux p d c current (kList p.bondingDuration) 0

/-- Reasons reported by the two withdrawal checks (the source reports them
as strings). -/
inductive WithdrawReason where
  | minimumWait
  | outsideWindow
  | thresholdExceededAt (era : Int)
  | allChecksPassed
deriving DecidableEq

/-- The result object of `canWithdraw`. -/
structure WithdrawCheck where
  canWithdraw : Bool
  reason : WithdrawReason
  estimatedErasRemaining : Option Int
deriving DecidableEq

/-- The first (backward-scan) `canWithdraw` of `App.jsx`. -/
def canWithdraw (p : NetworkParams) (d : EraData) (current : Int) (c : UnlockChunk) :
    WithdrawCheck :=
  if current < c.unbonding_start_era + p.minUnbondingEras then
    ⟨false, .minimumWait, none⟩
  else if c.unbonding_start_era < current - (p.bondingDuration - 1) then
    ⟨true, .outsideWindow, none⟩
  else
    match backwardScan p d c current with
    | .passedAll _ => ⟨true, .allChecksPassed, none⟩
    | .failedAt e lb =>
        ⟨false, .thresholdExceededAt lb,
          some (max 0 (max (p.bondingDuration - (e : Int))
            (max p.minUnbondingEras
              (c.unbonding_start_era + p.minUnbondingEras - current))))⟩

/-- The first (backward-scan) `estimateUnbondingTime` of `App.jsx`. -/
def estimateUnbondingTime (p : NetworkParams) (d : EraData) (current : Int)
    (c : UnlockChunk) : Int :=
  if c.unbonding_start_era < current - (p.bondingDuration - 1) then
    max 0 (c.unbonding_start_era + p.minUnbondingEras - current)
  else
    max (p.bondingDuration - (scanPassCount (backwardScan p d c current) : Int))
      (max p.minUnbondingEras
        (c.unbonding_start_era + p.minUnbondingEras - current))

/-- Plain cumulative sum over `[lookback, current]`, no chunk cap (used by
`estimateNewUnbondingTime`). -/
def plainSum (d : EraData) (lookback current : Int) : ℚ :=
  ((eraRange lookback current).map (totalUnbondIn d)).sum

/-- The backward scan loop of `estimateNewUnbondingTime` (breaks when the
lookback era is negative, no start-era cap). -/
def newScanAux (p : NetworkParams) (d : EraData) (current : Int) :
    List Int → Nat → Nat
  | [], e => e
  | k :: ks, e =>
    if current - k + 1 < 0 then e
    else if plainSum d (current - k + 1) current ≤
        (1 - p.minSlashableShare) * lowestThirdIn d (current - k + 1) then
      newScanAux p d current ks (e + 1)
    else e

/-- The first (backward-scan) `estimateNewUnbondingTime` of `App.jsx`: the
current era's total is provisionally incremented by the candidate amount. -/
def estimateNewUnbondingTime (p : NetworkParams) (d : EraData) (current : Int)
    (amount : ℚ) : Int :=
  max (p.bondingDuration -
      (newScanAux p (setTotalUnbond d current (totalUnbondIn d current + amount))
        current (kList p.bondingDuration) 0 : Int))
    p.minUnbondingEras

/-- The loop of the second (forward-accumulation) `canWithdraw`: iterates
`era` downward from `unbonding_start_era` to the window floor, accumulating
a running total and failing as soon as `total >= maxUnstake(era)`. -/
def canWithdraw2Loop (p : NetworkParams) (d : EraData) (c : UnlockChunk)
    (current : Int) : List Int → ℚ → WithdrawCheck
  | [], _ => ⟨true, .allChecksPassed, none⟩
  | era :: rest, total =>
    let total' :=
      if era = c.unbonding_start_era then
        min (totalUnbondIn d era) (c.previous_unbonded_stake_in_era + c.unbonding_amount)
      else total + totalUnbondIn d era
    if getMaxUnstakeForEra p d era ≤ total' then
      ⟨false, .thresholdExceededAt era, some (max 0 (era + p.bondingDuration - current))⟩
    else canWithdraw2Loop p d c current rest total'

/-- The second (forward-accumulation) `canWithdraw` of `App.jsx`. -/
def canWithdraw2 (p : NetworkParams) (d : EraData) (current : Int)
    (c : UnlockChunk) : WithdrawCheck :=
  if current < c.unbonding_start_era + p.minUnbondingEras then
    ⟨false, .minimumWait, none⟩
  else if current - (p.bondingDuration - 1) ≤ c.unbonding_start_era then
    canWithdraw2Loop p d c current
      (downRange c.unbonding_start_era (current - (p.bondingDuration - 1))) 0
  else ⟨true, .allChecksPassed, none⟩

/-- The whole mutable component state of the simulator that the core
operations touch. -/
structure SimState where
  params : NetworkParams
  eraData : EraData
  currentEra : Int
  timeAdvanced : Int
  unlockChunks : List UnlockChunk
  nextChunkId : Nat
  totalStakedDOT : ℚ
  lowestThirdRatio : ℚ
deriving DecidableEq

/-- `addUnbondingRequest`: rejects non-positive amounts (early return),
snapshots the current era's total, bumps `total_unbond_in_era[currentEra]`,
and appends a new pending chunk. -/
def addUnbondingRequest (s : SimState) (amount : ℚ) : SimState :=
  if amount ≤ 0 then s
  else
    { s with
      eraData := setTotalUnbond s.eraData s.currentEra
        (totalUnbondIn s.eraData s.currentEra + amount),
      unlockChunks := s.unlockChunks ++
        [⟨s.nextChunkId, amount, s.currentEra,
          totalUnbondIn s.eraData s.currentEra, ChunkStatus.pending⟩],
      nextChunkId := s.nextChunkId + 1 }

/-- One step of the `unlockChunks.map` inside `rebondChunk`: a chunk whose
id does not match (or which is not pending) passes through unchanged;
otherwise the era ledger is decremented (floored at `0`, only when the
chunk's start era is still within the window) and the chunk is reduced,
being dropped entirely when fully rebonded. -/
def rebondOne (p : NetworkParams) (current : Int) (chunkId : Nat) (amount : ℚ)
    (acc : EraData × List UnlockChunk) (c : UnlockChunk) :
    EraData × List UnlockChunk :=
  if c.id = chunkId ∧ c.status = ChunkStatus.pending then
    let actual := min amount c.unbonding_amount
    let d' :=
      if current - (p.bondingDuration - 1) ≤ c.unbonding_start_era then
        setTotalUnbond acc.1 c.unbonding_start_era
          (max 0 (totalUnbondIn acc.1 c.unbonding_start_era - actual))
      else acc.1
    (d',
      if c.unbonding_amount - actual ≤ 0 then acc.2
      else acc.2 ++ [{ c with unbonding_amount := c.unbonding_amount - actual }])
  else (acc.1, acc.2 ++ [c])

/-- `rebondChunk` of `App.jsx`. -/
def rebondChunk (s : SimState) (chunkId : Nat) (amount : ℚ) : SimState :=
  let r := s.unlockChunks.foldl (rebondOne s.params s.currentEra chunkId amount)
    (s.eraData, [])
  { s with eraData := r.1, unlockChunks := r.2 }

/-- One entry of the rebuilt window in `advanceEras`: keep the existing
record if the era index is present, otherwise seed a fresh record with the
supplied default lowest-third stake and zero unbonding. -/
def windowEntry (prev : EraData) (dflt : ℚ) (era : Int) : Int × EraRecord :=
  match lookupEra prev era with
  | some r => (era, r)
  | none => (era, ⟨dflt, 0⟩)

/-- The window-rebuilding loop of `advanceEras`
(`for era = oldest; era <= newEra; era++`). -/
def buildWindow (prev : EraData) (dflt : ℚ) (eras : List Int) : EraData :=
  eras.map (windowEntry prev dflt)

/-- `advanceEras` of `App.jsx` (first variant): moves `currentEra` forward
by `eras` (no validation of the argument) and rebuilds the
`BONDING_DURATION`-era window, seeding entering eras with
`lowestThirdRatio * totalStakedDOT`. -/
def advanceEras (s : SimState) (eras : Int) : SimState :=
  { s with
    currentEra := s.currentEra + eras,
    timeAdvanced := s.timeAdvanced + eras,
    eraData := buildWindow s.eraData (s.lowestThirdRatio * s.totalStakedDOT)
      (eraRange (s.currentEra + eras - (s.params.bondingDuration - 1))
        (s.currentEra + eras)) }

/-- The initial `networkParams` of the source (Polkadot). -/
def initParams : NetworkParams := ⟨28, 2, 1/2⟩

/-- The initial `eraData`: eras `0..27`, each with
`lowest_third_stake = 229_600_000` and no unbonding. -/
def initEraData : EraData := buildWindow [] 229600000 (eraRange 0 27)

/-- The initial component state of the source: current era 27, no chunks,
total stake 800M, lowest-third ratio 0.287. -/
def initState : SimState :=
  ⟨initParams, initEraData, 27, 0, [], 1, 800000000, 287/1000⟩

/-- The mutating operations a caller can perform on the state. -/
inductive SimOp where
  | add (amount : ℚ)
  | rebond (chunkId : Nat) (amount : ℚ)
  | advance (n : Int)

/-- Apply one operation. -/
def applyOp (s : SimState) : SimOp → SimState
  | .add amount => addUnbondingRequest s amount
  | .rebond chunkId amount => rebondChunk s chunkId amount
  | .advance n => advanceEras s n

/-- Run a sequence of operations. -/
def runOps (s : SimState) (ops : List SimOp) : SimState := ops.foldl applyOp s

/-- Small parameter set used for concrete scenarios: window of 3 eras,
minimum wait 2, slashable share 1/2 (so the per-era threshold is half the
lowest-third stake). -/
def p3 : NetworkParams := ⟨3, 2, 1/2⟩

/-- Concrete start state for the same-era scenario: eras 0..2 with
lowest-third stake 200M (threshold 100M), no unbonding, current era 2;
stake inputs chosen so that eras seeded later also get lowest-third 200M. -/
def st0 : SimState :=
  ⟨p3, [(0, ⟨200000000, 0⟩), (1, ⟨200000000, 0⟩), (2, ⟨200000000, 0⟩)],
    2, 0, [], 1, 400000000, 1/2⟩

/-- State after creating two same-era requests of 60M each at era 2 and
advancing to era 4. -/
def stAB : SimState :=
  advanceEras (addUnbondingRequest (addUnbondingRequest st0 60000000) 60000000) 2

/-- State after creating only the first 60M request at era 2 and advancing
to era 4 (the world in which the second request never happened). -/
def stA : SimState := advanceEras (addUnbondingRequest st0 60000000) 2

/-- The first chunk (A = 60M, snapshot 0). -/
def cA : UnlockChunk := ⟨1, 60000000, 2, 0, .pending⟩

/-- The second chunk (B = 60M, snapshot A = 60M). -/
def cB : UnlockChunk := ⟨2, 60000000, 2, 60000000, .pending⟩

/-- C1: two chunks created by `addUnbondingRequest` in the same era (era 2,
starting from `total_unbond_in_era = 0`) with amounts A = B = 60M against a
threshold of 100M.  The stored chunks carry snapshots 0 and A; the first
chunk's start-era contribution is capped at `0 + A = 60M`, so its scan
passes and its whole result is unchanged by the later creation of B, while
the second chunk's capped contribution is `A + B = 120M`, which exceeds the
100M threshold and blocks withdrawal at the start era. -/
theorem same_era_chunks_independent :
    stAB.unlockChunks = [cA, cB] ∧
    (1 - p3.minSlashableShare) * lowestThirdIn stAB.eraData 2 = 100000000 ∧
    chunkContribution stAB.eraData cA 2 = 60000000 ∧
    canWithdraw p3 stAB.eraData 4 cA = ⟨true, .allChecksPassed, none⟩ ∧
    canWithdraw p3 stA.eraData 4 cA = canWithdraw p3 stAB.eraData 4 cA ∧
    chunkContribution stAB.eraData cB 2 = 120000000 ∧
    canWithdraw p3 stAB.eraData 4 cB = ⟨false, .thresholdExceededAt 2, some 2⟩ := by
  have hAB : stAB.eraData =
      [(2, ⟨200000000, 120000000⟩), (3, ⟨200000000, 0⟩), (4, ⟨200000000, 0⟩)] := by
    norm_num [stAB, st0, p3, advanceEras, addUnbondingRequest, setTotalUnbond,
      insertEra, totalUnbondIn, lowestThirdIn, lookupEra, buildWindow, windowEntry,
      show eraRange 2 4 = [2, 3, 4] from by decide]
  have hA : stA.eraData =
      [(2, ⟨200000000, 60000000⟩), (3, ⟨200000000, 0⟩), (4, ⟨200000000, 0⟩)] := by
    norm_num [stA, st0, p3, advanceEras, addUnbondingRequest, setTotalUnbond,
      insertEra, totalUnbondIn, lowestThirdIn, lookupEra, buildWindow, windowEntry,
      show eraRange 2 4 = [2, 3, 4] from by decide]
  have hChunks : stAB.unlockChunks = [cA, cB] := by
    norm_num [stAB, st0, p3, cA, cB, advanceEras, addUnbondingRequest, setTotalUnbond,
      insertEra, totalUnbondIn, lowestThirdIn, lookupEra]
  rw [hAB, hA, hChunks]
  norm_num [canWithdraw, backwardScan, backwardScanAux, sumWindow, chunkContribution,
    totalUnbondIn, lowestThirdIn, lookupEra, cA, cB, p3, min_def, max_def,
    show kList 3 = [1, 2, 3] from by decide,
    show eraRange 4 4 = [4] from by decide,
    show eraRange 3 4 = [3, 4] from by decide,
    show eraRange 2 4 = [2, 3, 4] from by decide]

/-- Era data whose era-2 total equals the 100M threshold exactly. -/
def dEq : EraData :=
  [(2, ⟨200000000, 100000000⟩), (3, ⟨200000000, 0⟩), (4, ⟨200000000, 0⟩)]

/-- Era data whose era-2 total is one unit over the 100M threshold. -/
def dOv : EraData :=
  [(2, ⟨200000000, 100000001⟩), (3, ⟨200000000, 0⟩), (4, ⟨200000000, 0⟩)]

/-- A chunk accounting for the whole 100M of `dEq`. -/
def cEq : UnlockChunk := ⟨1, 100000000, 2, 0, .pending⟩

/-- A chunk accounting for the whole 100M + 1 of `dOv`. -/
def cOv : UnlockChunk := ⟨1, 100000001, 2, 0, .pending⟩

/-- C2: the backward withdrawal scan's threshold comparison is non-strict:
with `total_unbond_in_era` at the start era exactly equal to the era's
threshold (100M) the chunk's evaluation passes every check and the chunk is
withdrawable, while one unit over the threshold fails the start era's check
and blocks withdrawal. -/
theorem threshold_boundary_non_strict :
    (1 - p3.minSlashableShare) * lowestThirdIn dEq 2 = 100000000 ∧
    totalUnbondIn dEq 2 = 100000000 ∧
    canWithdraw p3 dEq 4 cEq = ⟨true, .allChecksPassed, none⟩ ∧
    totalUnbondIn dOv 2 = 100000001 ∧
    canWithdraw p3 dOv 4 cOv = ⟨false, .thresholdExceededAt 2, some 2⟩ := by
  norm_num [canWithdraw, backwardScan, backwardScanAux, sumWindow, chunkContribution,
    totalUnbondIn, lowestThirdIn, lookupEra, dEq, dOv, cEq, cOv, p3, min_def, max_def,
    show kList 3 = [1, 2, 3] from by decide,
    show eraRange 4 4 = [4] from by decide,
    show eraRange 3 4 = [3, 4] from by decide,
    show eraRange 2 4 = [2, 3, 4] from by decide]

/-- Era data on which the two `canWithdraw` variants disagree: a small
10-token chunk starts at era 2, and a large 150M unbond lands at era 3. -/
def dDiv : EraData :=
  [(2, ⟨200000000, 10⟩), (3, ⟨200000000, 150000000⟩), (4, ⟨200000000, 0⟩)]

/-- The 10-token chunk of the divergence scenario. -/
def cDiv : UnlockChunk := ⟨1, 10, 2, 0, .pending⟩

/-- C3: the backward-scan `canWithdraw` and the forward-accumulation
`canWithdraw` are not extensionally equal: on `dDiv` at era 4 the backward
scan inspects the window `[3, 4]` whose 150M total exceeds era 3's 100M
threshold and refuses withdrawal, while the forward variant only walks eras
`<= 2` (where only 10 tokens unbond) and allows it. -/
theorem withdraw_variants_diverge :
    (canWithdraw p3 dDiv 4 cDiv).canWithdraw = false ∧
    (canWithdraw2 p3 dDiv 4 cDiv).canWithdraw = true ∧
    canWithdraw p3 dDiv 4 cDiv ≠ canWithdraw2 p3 dDiv 4 cDiv := by
  have h1 : canWithdraw p3 dDiv 4 cDiv = ⟨false, .thresholdExceededAt 3, some 2⟩ := by
    norm_num [canWithdraw, backwardScan, backwardScanAux, sumWindow, chunkContribution,
      totalUnbondIn, lowestThirdIn, lookupEra, dDiv, cDiv, p3, min_def, max_def,
      show kList 3 = [1, 2, 3] from by decide,
      show eraRange 4 4 = [4] from by decide,
      show eraRange 3 4 = [3, 4] from by decide,
      show eraRange 2 4 = [2, 3, 4] from by decide]
  have h2 : canWithdraw2 p3 dDiv 4 cDiv = ⟨true, .allChecksPassed, none⟩ := by
    norm_num [canWithdraw2, canWithdraw2Loop, getMaxUnstakeForEra,
      totalUnbondIn, lowestThirdIn, lookupEra, dDiv, cDiv, p3, min_def, max_def,
      show downRange 2 2 = [2] from by decide]
  rw [h1, h2]
  refine ⟨rfl, rfl, by simp⟩

/-- A chunk whose start era (0) has aged out of the window at era 4 with a
3-era bonding duration. -/
def cOld : UnlockChunk := ⟨3, 10, 0, 0, .pending⟩

/-- C4 counterexample: for a chunk whose `start_era` has aged out of the
tracked window, `estimateUnbondingTime` returns
`max(0, start_era + MIN_UNBONDING_ERAS - current_era) = 0`, which is
strictly below `min_unbonding_eras = 2`. -/
theorem estimate_below_min_for_aged_out :
    estimateUnbondingTime p3 dDiv 4 cOld = 0 ∧
    estimateUnbondingTime p3 dDiv 4 cOld < p3.minUnbondingEras := by
  norm_num [estimateUnbondingTime, cOld, p3, max_def]

/-- C4 (amended): for every chunk whose `start_era` is still within the
tracked window (`start_era >= current_era - (bonding_duration - 1)`), the
duration returned by `estimateUnbondingTime` is at least
`min_unbonding_eras`; an aged-out chunk instead gets
`max(0, start_era + min_unbonding_eras - current_era)`, which can be `0`. -/
theorem estimate_min_wait_in_window (p : NetworkParams) (d : EraData) (current : Int)
    (c : UnlockChunk) (h : current - (p.bondingDuration - 1) ≤ c.unbonding_start_era) :
    p.minUnbondingEras ≤ estimateUnbondingTime p d current c := by
  unfold estimateUnbondingTime
  rw [if_neg (not_lt.mpr h)]
  exact le_trans (le_max_left _ _) (le_max_right _ _)

/-- Witness for the amended C4 theorem at a concrete in-window chunk. -/
theorem estimate_min_wait_in_window_witness :
    p3.minUnbondingEras ≤ estimateUnbondingTime p3 dEq 4 cEq :=
  estimate_min_wait_in_window p3 dEq 4 cEq (by decide)

/-- C8 counterexample: `advanceEras` performs no validation of its argument:
advancing by `-1` from the 3-era state `st0` is not rejected — it returns a
state whose current era moved from 2 to 1 and whose ledger window slid
backward to eras `[-1, 0, 1]` (seeding era `-1` afresh), so the current era
and the ledger are not left unchanged for a non-positive advance. -/
theorem advance_nonpositive_not_rejected :
    (advanceEras st0 (-1)).currentEra = 1 ∧
    st0.currentEra = 2 ∧
    (advanceEras st0 (-1)).eraData.map Prod.fst = [-1, 0, 1] ∧
    st0.eraData.map Prod.fst = [0, 1, 2] ∧
    (advanceEras st0 (-1)).currentEra ≠ st0.currentEra := by
  norm_num [advanceEras, buildWindow, windowEntry, lookupEra, st0, p3,
    show eraRange (-1) 1 = [-1, 0, 1] from by decide]

/-- C8 (amended): `advanceEras` accepts every argument without error: for
every state and every `n` (including `n <= 0`) it returns normally with the
current era moved to `currentEra + n`; advancing by `0` leaves the current
era and the ledger (indeed the whole state) unchanged. -/
theorem advance_no_validation :
    (∀ (s : SimState) (n : Int), (advanceEras s n).currentEra = s.currentEra + n) ∧
    advanceEras st0 0 = st0 := by
  constructor
  · intro s n
    rfl
  · norm_num [advanceEras, buildWindow, windowEntry, lookupEra, st0, p3,
      show eraRange 0 2 = [0, 1, 2] from by decide]

/-- C10: assuming `min_unbonding_eras <= bonding_duration`, the prospective
estimate `estimateNewUnbondingTime` always lies between `min_unbonding_eras`
and `bonding_duration`, for every ledger, era and amount. -/
theorem estimate_new_bounds (p : NetworkParams) (d : EraData) (current : Int)
    (amount : ℚ) (h : p.minUnbondingEras ≤ p.bondingDuration) :
    p.minUnbondingEras ≤ estimateNewUnbondingTime p d current amount ∧
    estimateNewUnbondingTime p d current amount ≤ p.bondingDuration := by
  unfold estimateNewUnbondingTime
  constructor
  · exact le_max_right _ _
  · exact max_le (sub_le_self _ (Int.natCast_nonneg _)) h

/-- Witness for C10 at the initial Polkadot parameters and ledger. -/
theorem estimate_new_bounds_witness :
    initParams.minUnbondingEras ≤ estimateNewUnbondingTime initParams initEraData 27 10000 ∧
    estimateNewUnbondingTime initParams initEraData 27 10000 ≤ initParams.bondingDuration :=
  estimate_new_bounds initParams initEraData 27 10000 (by decide)

/-- A successful era lookup returns a record stored at that key. -/
theorem lookupEra_mem {d : EraData} {e : Int} {r : EraRecord}
    (h : lookupEra d e = some r) : (e, r) ∈ d := by
  induction d with
  | nil => simp [lookupEra] at h
  | cons p ps ih =>
    by_cases hk : p.1 = e
    · simp only [lookupEra, if_pos hk] at h
      have hp : p = (e, r) := Prod.ext hk (Option.some.inj h)
      rw [hp]
      exact List.mem_cons_self _ _
    · simp only [lookupEra, if_neg hk] at h
      exact List.mem_cons_of_mem _ (ih h)

/-- The key of a rebuilt window entry is the era itself. -/
theorem windowEntry_fst (prev : EraData) (dflt : ℚ) (era : Int) :
    (windowEntry prev dflt era).1 = era := by
  unfold windowEntry
  cases lookupEra prev era <;> rfl

/-- The keys of a rebuilt window are exactly the iterated era indices. -/
theorem buildWindow_map_fst (prev : EraData) (dflt : ℚ) (eras : List Int) :
    (buildWindow prev dflt eras).map Prod.fst = eras := by
  unfold buildWindow
  rw [List.map_map]
  exact List.map_congr_left (fun e _ => windowEntry_fst prev dflt e) |>.trans (List.map_id eras)

/-- Looking up a rebuilt window hits the corresponding entry exactly on the
iterated era indices. -/
theorem lookupEra_buildWindow (prev : EraData) (dflt : ℚ) :
    ∀ (eras : List Int) (x : Int),
      lookupEra (buildWindow prev dflt eras) x =
        if x ∈ eras then some (windowEntry prev dflt x).2 else none := by
  intro eras
  induction eras with
  | nil => intro x; simp [buildWindow, lookupEra]
  | cons e es ih =>
    intro x
    show lookupEra (windowEntry prev dflt e :: buildWindow prev dflt es) x = _
    by_cases hx : e = x
    · subst hx
      simp [lookupEra, windowEntry_fst]
    · have h1 : (windowEntry prev dflt e).1 ≠ x := by
        rw [windowEntry_fst]; exact hx
      simp only [lookupEra, if_neg h1, ih x, List.mem_cons]
      have : (x = e ∨ x ∈ es) ↔ x ∈ es := by
        constructor
        · rintro (rfl | h)
          · exact absurd rfl hx
          · exact h
        · exact Or.inr
      rw [if_congr this rfl rfl]

/-- Era indices in `eraRange lo hi` are exactly those between `lo` and `hi`. -/
theorem mem_eraRange {lo hi x : Int} : x ∈ eraRange lo hi ↔ lo ≤ x ∧ x ≤ hi := by
  unfold eraRange
  simp only [List.mem_map, List.mem_range]
  constructor
  · rintro ⟨i, hi', rfl⟩
    omega
  · rintro ⟨h1, h2⟩
    exact ⟨(x - lo).toNat, by omega, by omega⟩

/-- C5: for every `n > 0` (and positive bonding duration), `advanceEras`
moves the current era to `currentEra + n` and rebuilds the ledger so that it
holds exactly `bonding_duration` contiguous era indices ending at the new
current era; every era index of the old ledger that is still in the new
window keeps its record unchanged, every newly entering era index gets a
fresh record with zero unbonding and the caller-level default
`lowestThirdRatio * totalStakedDOT`, and no era outside the new window is
present. -/
theorem advance_window_invariant (s : SimState) (n : Int) (hn : 0 < n)
    (hbd : 0 < s.params.bondingDuration) :
    (advanceEras s n).currentEra = s.currentEra + n ∧
    (advanceEras s n).eraData.map Prod.fst =
      eraRange (s.currentEra + n - (s.params.bondingDuration - 1)) (s.currentEra + n) ∧
    ((advanceEras s n).eraData.length : Int) = s.params.bondingDuration ∧
    (∀ era r, s.currentEra + n - (s.params.bondingDuration - 1) ≤ era →
      era ≤ s.currentEra + n → lookupEra s.eraData era = some r →
      lookupEra (advanceEras s n).eraData era = some r) ∧
    (∀ era, s.currentEra + n - (s.params.bondingDuration - 1) ≤ era →
      era ≤ s.currentEra + n → lookupEra s.eraData era = none →
      lookupEra (advanceEras s n).eraData era =
        some ⟨s.lowestThirdRatio * s.totalStakedDOT, 0⟩) ∧
    (∀ era, era < s.currentEra + n - (s.params.bondingDuration - 1) →
      lookupEra (advanceEras s n).eraData era = none) ∧
    (∀ era, s.currentEra + n < era →
      lookupEra (advanceEras s n).eraData era = none) := by
  refine ⟨rfl, buildWindow_map_fst _ _ _, ?_, ?_, ?_, ?_, ?_⟩
  · show (((eraRange _ _).map _).length : Int) = _
    rw [List.length_map]
    unfold eraRange
    rw [List.length_map, List.length_range]
    have h2 := Int.toNat_of_nonneg (by omega :
      (0 : Int) ≤ s.currentEra + n + 1 - (s.currentEra + n - (s.params.bondingDuration - 1)))
    omega
  · intro era r h1 h2 hl
    show lookupEra (buildWindow _ _ _) era = _
    rw [lookupEra_buildWindow, if_pos (mem_eraRange.mpr ⟨h1, h2⟩)]
    unfold windowEntry
    rw [hl]
  · intro era h1 h2 hl
    show lookupEra (buildWindow _ _ _) era = _
    rw [lookupEra_buildWindow, if_pos (mem_eraRange.mpr ⟨h1, h2⟩)]
    unfold windowEntry
    rw [hl]
  · intro era h1
    show lookupEra (buildWindow _ _ _) era = _
    rw [lookupEra_buildWindow, if_neg (fun hm => by have := mem_eraRange.mp hm; omega)]
  · intro era h1
    show lookupEra (buildWindow _ _ _) era = _
    rw [lookupEra_buildWindow, if_neg (fun hm => by have := mem_eraRange.mp hm; omega)]

/-- Witness for C5: advancing the initial state by one era seeds the newly
entering era 28 with the default record. -/
theorem advance_window_invariant_witness :
    lookupEra (advanceEras initState 1).eraData 28 =
      some ⟨initState.lowestThirdRatio * initState.totalStakedDOT, 0⟩ :=
  (advance_window_invariant initState 1 (by decide) (by decide)).2.2.2.2.1 28
    (by decide) (by decide) (by decide)

/-- Every record stored in the ledger has a non-negative unbonding total. -/
def EraNonneg (d : EraData) : Prop :=
  ∀ pr ∈ d, 0 ≤ (Prod.snd pr).total_unbond_in_era

/-- The defaulted total read is non-negative on a non-negative ledger. -/
theorem totalUnbondIn_nonneg {d : EraData} (h : EraNonneg d) (e : Int) :
    0 ≤ totalUnbondIn d e := by
  unfold totalUnbondIn
  cases hl : lookupEra d e with
  | none => exact le_refl 0
  | some r => exact h (e, r) (lookupEra_mem hl)

/-- Membership after a JS-style object update. -/
theorem mem_insertEra {d : EraData} {e : Int} {r : EraRecord} {pr : Int × EraRecord}
    (h : pr ∈ insertEra d e r) : pr = (e, r) ∨ pr ∈ d := by
  induction d with
  | nil =>
    simp only [insertEra, List.mem_singleton] at h
    exact Or.inl h
  | cons p ps ih =>
    by_cases hk : p.1 = e
    · rw [insertEra, if_pos hk] at h
      rcases List.mem_cons.mp h with h1 | h1
      · exact Or.inl h1
      · exact Or.inr (List.mem_cons_of_mem _ h1)
    · rw [insertEra, if_neg hk] at h
      rcases List.mem_cons.mp h with h1 | h1
      · exact Or.inr (h1 ▸ List.mem_cons_self _ _)
      · rcases ih h1 with h2 | h2
        · exact Or.inl h2
        · exact Or.inr (List.mem_cons_of_mem _ h2)

/-- `setTotalUnbond` keeps the ledger non-negative when the written value is
non-negative. -/
theorem eraNonneg_setTotalUnbond {d : EraData} (h : EraNonneg d) {e : Int} {v : ℚ}
    (hv : 0 ≤ v) : EraNonneg (setTotalUnbond d e v) := by
  intro pr hpr
  rcases mem_insertEra hpr with h1 | h1
  · rw [h1]
    exact hv
  · exact h pr h1

/-- Rebuilding a window keeps the ledger non-negative. -/
theorem eraNonneg_buildWindow {prev : EraData} (h : EraNonneg prev) (dflt : ℚ)
    (eras : List Int) : EraNonneg (buildWindow prev dflt eras) := by
  intro pr hpr
  obtain ⟨era, _, rfl⟩ := List.mem_map.mp hpr
  unfold windowEntry
  cases hl : lookupEra prev era with
  | some r => exact h (era, r) (lookupEra_mem hl)
  | none => exact le_refl 0

/-- `addUnbondingRequest` keeps the ledger non-negative. -/
theorem eraNonneg_add {s : SimState} (h : EraNonneg s.eraData) (amount : ℚ) :
    EraNonneg (addUnbondingRequest s amount).eraData := by
  unfold addUnbondingRequest
  by_cases ha : amount ≤ 0
  · rw [if_pos ha]
    exact h
  · rw [if_neg ha]
    exact eraNonneg_setTotalUnbond h
      (add_nonneg (totalUnbondIn_nonneg h _) (le_of_lt (lt_of_not_le ha)))

/-- Each step of the rebond fold keeps the ledger non-negative. -/
theorem eraNonneg_rebondOne {p : NetworkParams} {current : Int} {chunkId : Nat}
    {amount : ℚ} {acc : EraData × List UnlockChunk} (h : EraNonneg acc.1)
    (c : UnlockChunk) : EraNonneg (rebondOne p current chunkId amount acc c).1 := by
  unfold rebondOne
  by_cases hc : c.id = chunkId ∧ c.status = ChunkStatus.pending
  · rw [if_pos hc]
    by_cases hw : current - (p.bondingDuration - 1) ≤ c.unbonding_start_era
    · simp only [if_pos hw]
      exact eraNonneg_setTotalUnbond h (le_max_left 0 _)
    · simp only [if_neg hw]
      exact h
  · rw [if_neg hc]
    exact h

/-- The rebond fold keeps the ledger non-negative. -/
theorem eraNonneg_rebondFold (p : NetworkParams) (current : Int) (chunkId : Nat)
    (amount : ℚ) :
    ∀ (cs : List UnlockChunk) (acc : EraData × List UnlockChunk), EraNonneg acc.1 →
      EraNonneg (cs.foldl (rebondOne p current chunkId amount) acc).1 := by
  intro cs
  induction cs with
  | nil => intro acc h; exact h
  | cons c cs ih =>
    intro acc h
    exact ih _ (eraNonneg_rebondOne h c)

/-- Every single operation keeps the ledger non-negative. -/
theorem eraNonneg_applyOp {s : SimState} (h : EraNonneg s.eraData) (op : SimOp) :
    EraNonneg (applyOp s op).eraData := by
  cases op with
  | add amount => exact eraNonneg_add h amount
  | rebond chunkId amount => exact eraNonneg_rebondFold _ _ _ _ _ _ h
  | advance n => exact eraNonneg_buildWindow h _ _

/-- Running any operation sequence keeps the ledger non-negative. -/
theorem eraNonneg_runOps (ops : List SimOp) :
    ∀ (s : SimState), EraNonneg s.eraData → EraNonneg (runOps s ops).eraData := by
  induction ops with
  | nil => intro s h; exact h
  | cons op ops ih =>
    intro s h
    exact ih _ (eraNonneg_applyOp h op)

/-- C6: after any sequence of `addUnbondingRequest` / `rebondChunk` /
`advanceEras` operations starting from the initial state, every era record
present in the ledger has `total_unbond_in_era >= 0` (and since any point of
a sequence is reached by running its prefix, the invariant holds at every
intermediate state as well). -/
theorem total_unbond_nonneg_all_ops (ops : List SimOp) :
    ∀ pr ∈ (runOps initState ops).eraData, 0 ≤ (Prod.snd pr).total_unbond_in_era := by
  refine eraNonneg_runOps ops initState ?_
  intro pr hpr
  obtain ⟨era, _, rfl⟩ := List.mem_map.mp hpr
  unfold windowEntry
  cases hl : lookupEra [] era with
  | some r => cases hl
  | none => exact le_refl 0

/-- Witness for C6 at the empty operation sequence and the era-0 record of
the initial ledger. -/
theorem total_unbond_nonneg_all_ops_witness :
    ((0 : Int), (⟨229600000, 0⟩ : EraRecord)) ∈ (runOps initState []).eraData ∧
    (0 : ℚ) ≤ (Prod.snd ((0 : Int), (⟨229600000, 0⟩ : EraRecord))).total_unbond_in_era :=
  ⟨by decide, total_unbond_nonneg_all_ops [] ((0 : Int), (⟨229600000, 0⟩ : EraRecord))
    (by decide)⟩

/-- Updating a key makes lookup return the new record at that key. -/
theorem lookupEra_insertEra_self (d : EraData) (e : Int) (r : EraRecord) :
    lookupEra (insertEra d e r) e = some r := by
  induction d with
  | nil => simp [insertEra, lookupEra]
  | cons p ps ih =>
    by_cases hk : p.1 = e
    · rw [insertEra, if_pos hk]
      simp [lookupEra]
    · rw [insertEra, if_neg hk, lookupEra, if_neg hk]
      exact ih

/-- Updating a key leaves lookup at other keys unchanged. -/
theorem lookupEra_insertEra_ne (d : EraData) (e : Int) (r : EraRecord) {x : Int}
    (hx : x ≠ e) : lookupEra (insertEra d e r) x = lookupEra d x := by
  have hex : ¬((e, r).1 = x) := fun h => hx h.symm
  induction d with
  | nil => simp [insertEra, lookupEra, hex]
  | cons p ps ih =>
    by_cases hk : p.1 = e
    · rw [insertEra, if_pos hk, lookupEra, if_neg hex, lookupEra,
        if_neg (fun h => hx (hk ▸ h.symm : x = e).symm.symm)]
    · rw [insertEra, if_neg hk, lookupEra, lookupEra]
      by_cases hpx : p.1 = x
      · rw [if_pos hpx, if_pos hpx]
      · rw [if_neg hpx, if_neg hpx]
        exact ih

/-- Reading the total after `setTotalUnbond`: the written value at the
written key, the old value elsewhere. -/
theorem totalUnbondIn_setTotalUnbond (d : EraData) (e : Int) (v : ℚ) (x : Int) :
    totalUnbondIn (setTotalUnbond d e v) x = if x = e then v else totalUnbondIn d x := by
  by_cases hx : x = e
  · subst hx
    rw [if_pos rfl]
    unfold totalUnbondIn setTotalUnbond
    rw [lookupEra_insertEra_self]
  · rw [if_neg hx]
    unfold totalUnbondIn setTotalUnbond
    rw [lookupEra_insertEra_ne _ _ _ hx]

/-- `setTotalUnbond` never changes the lowest-third read of any era. -/
theorem lowestThirdIn_setTotalUnbond (d : EraData) (e : Int) (v : ℚ) (x : Int) :
    lowestThirdIn (setTotalUnbond d e v) x = lowestThirdIn d x := by
  by_cases hx : x = e
  · subst hx
    conv_lhs => unfold lowestThirdIn setTotalUnbond
    rw [lookupEra_insertEra_self]
  · conv_lhs => unfold lowestThirdIn setTotalUnbond
    rw [lookupEra_insertEra_ne _ _ _ hx]
    rfl

/-- The capped start-era contribution is monotone in the ledger totals. -/
theorem chunkContribution_mono {d' d : EraData}
    (h : ∀ era, totalUnbondIn d' era ≤ totalUnbondIn d era) (c : UnlockChunk)
    (era : Int) : chunkContribution d' c era ≤ chunkContribution d c era := by
  unfold chunkContribution
  by_cases he : era = c.unbonding_start_era
  · rw [if_pos he, if_pos he]
    exact min_le_min (h era) le_rfl
  · rw [if_neg he, if_neg he]
    exact h era

/-- The windowed cumulative sum is monotone in the ledger totals. -/
theorem sumWindow_mono {d' d : EraData}
    (h : ∀ era, totalUnbondIn d' era ≤ totalUnbondIn d era) (c : UnlockChunk)
    (lookback current : Int) :
    sumWindow d' c lookback current ≤ sumWindow d c lookback current := by
  unfold sumWindow
  exact List.sum_le_sum (fun era _ => chunkContribution_mono h c era)

/-- The scan's pass count never drops below its accumulator. -/
theorem scanPassCount_aux_ge (p : NetworkParams) (d : EraData) (c : UnlockChunk)
    (current : Int) : ∀ (ks : List Int) (e : Nat),
      e ≤ scanPassCount (backwardScanAux p d c current ks e) := by
  intro ks
  induction ks with
  | nil => intro e; exact le_refl e
  | cons k ks ih =>
    intro e
    rw [backwardScanAux]
    by_cases h1 : current - k + 1 < c.unbonding_start_era
    · rw [if_pos h1]
      exact le_refl e
    · rw [if_neg h1]
      by_cases h2 : sumWindow d c (current - k + 1) current ≤
          (1 - p.minSlashableShare) * lowestThirdIn d (current - k + 1)
      · rw [if_pos h2]
        exact le_trans (Nat.le_succ e) (ih (e + 1))
      · rw [if_neg h2]
        exact le_refl e

/-- Lowering the ledger totals (with unchanged lowest-third data) can only
increase the scan's pass count. -/
theorem scanPassCount_aux_mono {p : NetworkParams} {d' d : EraData} {c : UnlockChunk}
    {current : Int} (hT : ∀ era, totalUnbondIn d' era ≤ totalUnbondIn d era)
    (hL : ∀ era, lowestThirdIn d' era = lowestThirdIn d era) :
    ∀ (ks : List Int) (e : Nat),
      scanPassCount (backwardScanAux p d c current ks e) ≤
        scanPassCount (backwardScanAux p d' c current ks e) := by
  intro ks
  induction ks with
  | nil => intro e; exact le_refl e
  | cons k ks ih =>
    intro e
    rw [backwardScanAux, backwardScanAux]
    by_cases h1 : current - k + 1 < c.unbonding_start_era
    · rw [if_pos h1, if_pos h1]
    · rw [if_neg h1, if_neg h1]
      by_cases h2 : sumWindow d c (current - k + 1) current ≤
          (1 - p.minSlashableShare) * lowestThirdIn d (current - k + 1)
      · have h2' : sumWindow d' c (current - k + 1) current ≤
            (1 - p.minSlashableShare) * lowestThirdIn d' (current - k + 1) := by
          rw [hL]
          exact le_trans (sumWindow_mono hT c _ current) h2
        rw [if_pos h2, if_pos h2']
        exact ih (e + 1)
      · rw [if_neg h2]
        by_cases h3 : sumWindow d' c (current - k + 1) current ≤
            (1 - p.minSlashableShare) * lowestThirdIn d' (current - k + 1)
        · rw [if_pos h3]
          exact le_trans (Nat.le_succ e) (scanPassCount_aux_ge p d' c current ks (e + 1))
        · rw [if_neg h3]

/-- Lowering the ledger totals (with unchanged lowest-third data) can only
lower the estimated wait of any chunk. -/
theorem estimate_mono {p : NetworkParams} {d' d : EraData} {current : Int}
    (hT : ∀ era, totalUnbondIn d' era ≤ totalUnbondIn d era)
    (hL : ∀ era, lowestThirdIn d' era = lowestThirdIn d era) (c : UnlockChunk) :
    estimateUnbondingTime p d' current c ≤ estimateUnbondingTime p d current c := by
  unfold estimateUnbondingTime
  by_cases h1 : c.unbonding_start_era < current - (p.bondingDuration - 1)
  · rw [if_pos h1, if_pos h1]
  · rw [if_neg h1, if_neg h1]
    refine max_le_max ?_ le_rfl
    refine sub_le_sub_left ?_ _
    exact_mod_cast scanPassCount_aux_mono hT hL (kList p.bondingDuration) 0

/-- Reads after one step of the rebond fold: totals never increase, stay
non-negative, and lowest-third data is untouched. -/
theorem rebondOne_reads (p : NetworkParams) (current : Int) (chunkId : Nat)
    (amount : ℚ) (hAmt : 0 ≤ amount) (acc : EraData × List UnlockChunk)
    (c : UnlockChunk) (hc : 0 ≤ c.unbonding_amount)
    (hN : ∀ era, 0 ≤ totalUnbondIn acc.1 era) :
    (∀ era, totalUnbondIn (rebondOne p current chunkId amount acc c).1 era ≤
      totalUnbondIn acc.1 era) ∧
    (∀ era, lowestThirdIn (rebondOne p current chunkId amount acc c).1 era =
      lowestThirdIn acc.1 era) ∧
    (∀ era, 0 ≤ totalUnbondIn (rebondOne p current chunkId amount acc c).1 era) := by
  by_cases h1 : c.id = chunkId ∧ c.status = ChunkStatus.pending
  · by_cases h2 : current - (p.bondingDuration - 1) ≤ c.unbonding_start_era
    · have hd : (rebondOne p current chunkId amount acc c).1 =
          setTotalUnbond acc.1 c.unbonding_start_era
            (max 0 (totalUnbondIn acc.1 c.unbonding_start_era -
              min amount c.unbonding_amount)) := by
        unfold rebondOne
        rw [if_pos h1]
        simp only [if_pos h2]
      rw [hd]
      refine ⟨?_, ?_, ?_⟩ <;> intro era
      · rw [totalUnbondIn_setTotalUnbond]
        by_cases he : era = c.unbonding_start_era
        · rw [if_pos he, he]
          exact max_le (hN _) (sub_le_self _ (le_min hAmt hc))
        · rw [if_neg he]
      · rw [lowestThirdIn_setTotalUnbond]
      · rw [totalUnbondIn_setTotalUnbond]
        by_cases he : era = c.unbonding_start_era
        · rw [if_pos he]
          exact le_max_left 0 _
        · rw [if_neg he]
          exact hN era
    · have hd : (rebondOne p current chunkId amount acc c).1 = acc.1 := by
        unfold rebondOne
        rw [if_pos h1]
        simp only [if_neg h2]
      rw [hd]
      exact ⟨fun _ => le_rfl, fun _ => rfl, hN⟩
  · have hd : (rebondOne p current chunkId amount acc c).1 = acc.1 := by
      unfold rebondOne
      rw [if_neg h1]
    rw [hd]
    exact ⟨fun _ => le_rfl, fun _ => rfl, hN⟩

/-- Reads after the whole rebond fold: totals never increase and
lowest-third data is untouched. -/
theorem rebondFold_reads (p : NetworkParams) (current : Int) (chunkId : Nat)
    (amount : ℚ) (hAmt : 0 ≤ amount) :
    ∀ (cs : List UnlockChunk) (acc : EraData × List UnlockChunk),
      (∀ c ∈ cs, 0 ≤ c.unbonding_amount) →
      (∀ era, 0 ≤ totalUnbondIn acc.1 era) →
      (∀ era, totalUnbondIn (cs.foldl (rebondOne p current chunkId amount) acc).1 era ≤
        totalUnbondIn acc.1 era) ∧
      (∀ era, lowestThirdIn (cs.foldl (rebondOne p current chunkId amount) acc).1 era =
        lowestThirdIn acc.1 era) := by
  intro cs
  induction cs with
  | nil => intro acc _ _; exact ⟨fun _ => le_rfl, fun _ => rfl⟩
  | cons c cs ih =>
    intro acc hcs hN
    have hstep := rebondOne_reads p current chunkId amount hAmt acc c
      (hcs c (List.mem_cons_self _ _)) hN
    have hrest := ih (rebondOne p current chunkId amount acc c)
      (fun c' hc' => hcs c' (List.mem_cons_of_mem _ hc')) hstep.2.2
    rw [List.foldl_cons]
    exact ⟨fun era => le_trans (hrest.1 era) (hstep.1 era),
      fun era => (hrest.2 era).trans (hstep.2.1 era)⟩

/-- C7: rebonding — any requested (non-negative) amount of any chunk —
never increases `total_unbond_in_era` for any era of a ledger whose stored
totals and chunk amounts are non-negative, and never increases the
estimated wait of any chunk evaluated against the ledger. -/
theorem rebond_monotonic_relief (s : SimState) (chunkId : Nat) (amount : ℚ)
    (hInv : ∀ pr ∈ s.eraData, 0 ≤ (Prod.snd pr).total_unbond_in_era)
    (hChunks : ∀ c ∈ s.unlockChunks, 0 ≤ c.unbonding_amount)
    (hAmt : 0 ≤ amount) :
    (∀ era, totalUnbondIn (rebondChunk s chunkId amount).eraData era ≤
      totalUnbondIn s.eraData era) ∧
    (∀ c : UnlockChunk,
      estimateUnbondingTime s.params (rebondChunk s chunkId amount).eraData
        s.currentEra c ≤
      estimateUnbondingTime s.params s.eraData s.currentEra c) := by
  have hfold := rebondFold_reads s.params s.currentEra chunkId amount hAmt
    s.unlockChunks (s.eraData, []) hChunks (totalUnbondIn_nonneg hInv)
  exact ⟨hfold.1, fun c => estimate_mono hfold.1 hfold.2 c⟩

/-- Concrete state for the C7 witness: a 1000-token pending chunk at era 2
with its unbond recorded in the ledger. -/
def sW : SimState :=
  ⟨p3, [(0, ⟨200000000, 0⟩), (1, ⟨200000000, 0⟩), (2, ⟨200000000, 1000⟩)],
    2, 0, [⟨1, 1000, 2, 0, .pending⟩], 2, 400000000, 1/2⟩

/-- Witness for C7: partially rebonding 400 of the chunk does not increase
era 2's total. -/
theorem rebond_monotonic_relief_witness :
    totalUnbondIn (rebondChunk sW 1 400).eraData 2 ≤ totalUnbondIn sW.eraData 2 :=
  (rebond_monotonic_relief sW 1 400 (by decide) (by decide) (by decide)).1 2

/-- When no chunk of the list matches the requested id (as a pending chunk),
the rebond fold leaves the ledger untouched and reproduces the chunk list. -/
theorem rebondFold_no_match (p : NetworkParams) (current : Int) (chunkId : Nat)
    (amount : ℚ) :
    ∀ (cs : List UnlockChunk) (d : EraData) (l : List UnlockChunk),
      (∀ c ∈ cs, ¬(c.id = chunkId ∧ c.status = ChunkStatus.pending)) →
      cs.foldl (rebondOne p current chunkId amount) (d, l) = (d, l ++ cs) := by
  intro cs
  induction cs with
  | nil =>
    intro d l _
    rw [List.foldl_nil, List.append_nil]
  | cons c cs ih =>
    intro d l h
    rw [List.foldl_cons,
      show rebondOne p current chunkId amount (d, l) c = (d, l ++ [c]) from by
        unfold rebondOne
        rw [if_neg (h c (List.mem_cons_self _ _))],
      ih d (l ++ [c]) (fun c' hc' => h c' (List.mem_cons_of_mem _ hc')),
      List.append_assoc, List.singleton_append]

/-- If every chunk of the list carrying the requested id is pending with an
amount at most the requested one, the rebond fold's resulting chunk list
contains no chunk with that id (beyond whatever the accumulator contains). -/
theorem rebondFold_removes (p : NetworkParams) (current : Int) (chunkId : Nat)
    (amount : ℚ) :
    ∀ (cs : List UnlockChunk) (d : EraData) (l : List UnlockChunk),
      (∀ c ∈ cs, c.id = chunkId →
        c.status = ChunkStatus.pending ∧ c.unbonding_amount ≤ amount) →
      (∀ c ∈ l, c.id ≠ chunkId) →
      ∀ c' ∈ (cs.foldl (rebondOne p current chunkId amount) (d, l)).2,
        c'.id ≠ chunkId := by
  intro cs
  induction cs with
  | nil =>
    intro d l _ hl
    exact hl
  | cons c cs ih =>
    intro d l hcs hl
    rw [List.foldl_cons]
    by_cases hid : c.id = chunkId
    · have hc := hcs c (List.mem_cons_self _ _) hid
      have hstep : rebondOne p current chunkId amount (d, l) c =
          ((rebondOne p current chunkId amount (d, l) c).1, l) := by
        refine Prod.ext rfl ?_
        unfold rebondOne
        rw [if_pos ⟨hid, hc.1⟩]
        simp only [min_eq_right hc.2, sub_self, le_refl, if_pos]
      rw [hstep]
      exact ih _ l (fun c' hc' => hcs c' (List.mem_cons_of_mem _ hc')) hl
    · have hstep : rebondOne p current chunkId amount (d, l) c =
          ((rebondOne p current chunkId amount (d, l) c).1, l ++ [c]) := by
        refine Prod.ext rfl ?_
        unfold rebondOne
        rw [if_neg (fun hand => hid hand.1)]
      rw [hstep]
      refine ih ((rebondOne p current chunkId amount (d, l) c).1) (l ++ [c])
        (fun c' hc' => hcs c' (List.mem_cons_of_mem _ hc')) ?_
      intro x hx
      rcases List.mem_append.mp hx with h1 | h1
      · exact hl x h1
      · rw [List.mem_singleton.mp h1]
        exact hid

/-- C9: fully rebonding a pending chunk (whose id is unique in the store)
removes it from the store entirely — no chunk with its id remains — and any
subsequent `rebondChunk` call on the same id, with any amount, finds no
pending chunk and returns the state completely unchanged (ledger and chunk
store included). -/
theorem full_rebond_then_noop (s : SimState) (c : UnlockChunk)
    (hmem : c ∈ s.unlockChunks) (hpend : c.status = ChunkStatus.pending)
    (hnodup : (s.unlockChunks.map UnlockChunk.id).Nodup) :
    (∀ c' ∈ (rebondChunk s c.id c.unbonding_amount).unlockChunks, c'.id ≠ c.id) ∧
    (∀ a, rebondChunk (rebondChunk s c.id c.unbonding_amount) c.id a =
      rebondChunk s c.id c.unbonding_amount) := by
  have huniq : ∀ x ∈ s.unlockChunks, x.id = c.id → x = c :=
    fun x hx hid => List.inj_on_of_nodup_map hnodup hx hmem hid
  have hrem : ∀ c' ∈ (rebondChunk s c.id c.unbonding_amount).unlockChunks,
      c'.id ≠ c.id := by
    intro c' hc'
    refine rebondFold_removes s.params s.currentEra c.id c.unbonding_amount
      s.unlockChunks s.eraData [] ?_ ?_ c' hc'
    · intro x hx hid
      rw [huniq x hx hid]
      exact ⟨hpend, le_refl _⟩
    · intro x hx
      cases hx
  refine ⟨hrem, fun a => ?_⟩
  set t := rebondChunk s c.id c.unbonding_amount with ht
  unfold rebondChunk
  rw [rebondFold_no_match t.params t.currentEra c.id a t.unlockChunks t.eraData []
    (fun x hx hand => hrem x hx hand.1)]
  rfl

/-- Witness for C9 on the initial state after one 1000-token request. -/
theorem full_rebond_then_noop_witness :
    rebondChunk (rebondChunk (addUnbondingRequest initState 1000) 1 1000) 1 500 =
      rebondChunk (addUnbondingRequest initState 1000) 1 1000 :=
  (full_rebond_then_noop (addUnbondingRequest initState 1000)
    ⟨1, 1000, 27, 0, .pending⟩ (by decide) (by decide) (by decide)).2 500
